import Mathlib

/-!
Verification of the `tf-mdp` simulation core (`tfmdp/train/mrm.py`,
`tfmdp/train/planner.py`) against its specification.

Tensors are shallowly embedded: a rank-2 TensorFlow tensor of shape
`[batch, k]` becomes a list of `batch` rows, each a list of `k` rational
numbers (floating-point values abstracted as `ℚ`), together with a dtype
tag.  Rank-3 tensors of shape `[batch, horizon, 1]` used by the rollout
driver become triply nested lists.  The external collaborators (the
rddl2tf `Compiler` and the `DeepReactivePolicy`) are records of opaque
functions, exactly the interface the simulation cell consumes.
-/

/-- TensorFlow dtypes used by the embedded code. -/
inductive DType where
  | float32
  | float64
  | int32
  | int64
  | boolType
  deriving DecidableEq, Repr

/-- A rank-2 tensor `[batch, k]`: a dtype together with `batch` rows. -/
structure Tensor where
  dtype : DType
  rows : List (List ℚ)
  deriving DecidableEq, Repr

/-- `rddl2tf.fluent.TensorFluent`: a wrapper exposing an underlying tensor
(the only part of the interface `mrm.py` touches is `.tensor`). -/
structure TensorFluent where
  tensor : Tensor
  deriving DecidableEq, Repr

/-- `FluentTriple = Tuple[str, TensorFluent, TensorFluent]`:
`(name, value, log_prob)`. -/
def FluentTriple := String × TensorFluent × TensorFluent

instance : DecidableEq FluentTriple := by
  unfold FluentTriple
  infer_instance

/-- A transition scope: the name-to-fluent mapping built by the compiler
(a Python `dict`). -/
def Scope := String → Option TensorFluent

/-- Python `dict.update` with a dict comprehension
`{name: fluent for name, fluent, _ in fluents}`: each triple's name is
bound to its value fluent, later duplicates overriding earlier ones and
all of them overriding the original scope. -/
def Scope.update (scope : Scope) (fluents : List FluentTriple) : Scope :=
  fluents.foldl (fun s f => fun n => if n = f.1 then some f.2.1 else s n) scope

/-- The `rddl2tf.compiler.Compiler` interface consumed by the cell:
static shape metadata plus the compilation entry points (opaque
functions, fixed for the compiler's lifetime). -/
structure Compiler where
  state_size : List (List Nat)
  action_size : List (List Nat)
  interm_size : List (List Nat)
  compile_initial_state : Nat → List Tensor
  transition_scope : List Tensor → List Tensor → Scope
  compile_probabilistic_cpfs : Scope → Nat → List FluentTriple × List FluentTriple
  compile_reward : Scope → TensorFluent

/-- The `DeepReactivePolicy` interface: `(state, input) -> action`. -/
def Policy := List Tensor → Tensor → List Tensor

/-- `tf.split(input, [1, 1], axis=1)`: split a `[batch, 2]` tensor into
its two `[batch, 1]` columns. -/
def tfSplit2 (t : Tensor) : Tensor × Tensor :=
  ({ dtype := t.dtype, rows := t.rows.map (fun r => r.take 1) },
   { dtype := t.dtype, rows := t.rows.map (fun r => r.drop 1) })

/-- `tf.concat(ts, axis=1)` on rank-2 tensors with equal batch size:
rows are concatenated pointwise.  (TensorFlow rejects an empty operand
list; the `[]` case here is never relied upon.) -/
def concatAxis1 : List (List (List ℚ)) → List (List ℚ)
  | [] => []
  | [t] => t
  | t :: ts => List.zipWith (fun a b => a ++ b) t (concatAxis1 ts)

/-- `tf.reduce_sum(t, axis=1)` on a rank-2 tensor: sum each row. -/
def reduceSum1 (rows : List (List ℚ)) : List ℚ :=
  rows.map List.sum

/-- `MRMCell(compiler, policy, batch_size)`: the one-step simulation
cell.  Its only attributes are the three constructor arguments; it holds
no other state. -/
structure MRMCell where
  compiler : Compiler
  policy : Policy
  batch_size : Nat

/-- `MRMCell.state_size`. -/
def MRMCell.state_size (cell : MRMCell) : List (List Nat) :=
  cell.compiler.state_size

/-- `MRMCell.action_size`. -/
def MRMCell.action_size (cell : MRMCell) : List (List Nat) :=
  cell.compiler.action_size

/-- `MRMCell.interm_size`. -/
def MRMCell.interm_size (cell : MRMCell) : List (List Nat) :=
  cell.compiler.interm_size

/-- `MRMCell.output_size`. -/
def MRMCell.output_size (cell : MRMCell) :
    List (List Nat) × List (List Nat) × List (List Nat) × Nat × Nat :=
  (cell.state_size, cell.action_size, cell.interm_size, 1, 1)

/-- `MRMCell.initial_state`. -/
def MRMCell.initial_state (cell : MRMCell) : List Tensor :=
  cell.compiler.compile_initial_state cell.batch_size

/-- `MRMCell._log_prob(interm_fluents, next_state_fluents)`: concatenate
the intermediate fluents' log-prob tensors along axis 1 and reduce by
summation, likewise for the next-state fluents, add the two results and
expand the last dimension back to width 1. -/
def MRMCell.stepLogProb (interm_fluents next_state_fluents : List FluentTriple) :
    Tensor :=
  let interm_log_probs := interm_fluents.map (fun f => f.2.2.tensor.rows)
  let interm_log_prob := reduceSum1 (concatAxis1 interm_log_probs)
  let next_state_log_probs := next_state_fluents.map (fun f => f.2.2.tensor.rows)
  let next_state_log_prob := reduceSum1 (concatAxis1 next_state_log_probs)
  { dtype := DType.float32,
    rows := (List.zipWith (fun a b => a + b) interm_log_prob next_state_log_prob).map
      (fun x => [x]) }

/-- `MRMCell._dtype(tensor)`: cast to `tf.float32` if the dtype differs
(the cast is value preserving on the embedded data). -/
def MRMCell.toFloat32 (t : Tensor) : Tensor :=
  if t.dtype ≠ DType.float32 then { dtype := DType.float32, rows := t.rows } else t

/-- `MRMCell._tensors(fluents)`: the fluents' value tensors, in order. -/
def MRMCell.tensorsOf (fluents : List FluentTriple) : List Tensor :=
  fluents.map (fun f => f.2.1.tensor)

/-- `MRMCell._output(fluents)`: the value tensors, each normalized to
`tf.float32`. -/
def MRMCell.outputOf (fluents : List FluentTriple) : List Tensor :=
  (MRMCell.tensorsOf fluents).map MRMCell.toFloat32

/-- The cell's five-component step output:
`(next_state, action, interm_state, reward, log_prob)`. -/
def CellOutput := List Tensor × List Tensor × List Tensor × Tensor × Tensor

/-- `MRMCell.__call__(input, state)`, the one-step transition operator,
transcribed line by line from `mrm.py`. -/
def MRMCell.call (cell : MRMCell) (input : Tensor) (state : List Tensor) :
    CellOutput × List Tensor :=
  let timestep_stop_flag := tfSplit2 input
  let action := cell.policy state input
  let transition_scope := cell.compiler.transition_scope state action
  let fluents := cell.compiler.compile_probabilistic_cpfs transition_scope cell.batch_size
  let interm_fluents := fluents.1
  let next_state_fluents := fluents.2
  let log_prob := MRMCell.stepLogProb interm_fluents next_state_fluents
  let updated_scope := transition_scope.update next_state_fluents
  let reward := (cell.compiler.compile_reward updated_scope).tensor
  let interm_state := MRMCell.outputOf interm_fluents
  let next_state := MRMCell.outputOf next_state_fluents
  let output : CellOutput := (next_state, action, interm_state, reward, log_prob)
  let _ := timestep_stop_flag
  (output, next_state)

/-!
`tfmdp/train/planner.py`: the abstract `PolicyOptimizationPlanner`.
Its classmethod `from_json` executes `config = json.loads(json_string)`.
Python resolves each bare name against the local scope, then the module's
global namespace, then the builtins; an unresolved name raises
`NameError`.  The embedding records exactly the names bound in
`planner.py`'s module namespace (its import statements, module-level
assignments and class statement) and the names local to `from_json`.
-/

/-- A Python computation that either returns or raises `NameError name`. -/
inductive PyResult (α : Type) where
  | ok (a : α)
  | nameError (name : String)
  deriving DecidableEq, Repr

/-- The planner object `cls(compiler, config)` would construct. -/
structure PolicyOptimizationPlanner where
  compiler : Compiler
  config : String

/-- Names bound in `planner.py`'s module namespace: the imports
(`rddl2tf`, the five `from ... import` names, `abc`, `tf`, the `typing`
names), the two module-level assignments and the class itself.  `json`
is not among them: `planner.py` never imports it. -/
def plannerModuleNames : List String :=
  ["rddl2tf", "DeepReactivePolicy", "MarkovRecurrentModel", "PolicyLoss",
   "Optimizer", "Callback", "abc", "tf",
   "Callable", "Dict", "List", "Optional", "Sequence",
   "Callbacks", "PolicyOptimizationPlanner"]

/-- Python builtin names relevant to resolving the body of `from_json`
(neither `json` nor `json_string` is a builtin). -/
def pythonBuiltinNames : List String :=
  ["len", "range", "print", "zip", "list", "tuple", "dict", "str", "int",
   "float", "super", "isinstance", "type", "NotImplementedError"]

/-- The local names of `PolicyOptimizationPlanner.from_json`: the bound
class, and its two parameters `compiler` and `json_config`. -/
def fromJsonLocalNames : List String :=
  ["cls", "compiler", "json_config"]

/-- Python name resolution for the body of `from_json`: locals, then
module globals, then builtins. -/
def resolvesInFromJson (n : String) : Bool :=
  n ∈ fromJsonLocalNames ∨ n ∈ plannerModuleNames ∨ n ∈ pythonBuiltinNames

/-- `PolicyOptimizationPlanner.from_json(compiler, json_config)`:
its body is `config = json.loads(json_string); return cls(compiler, config)`.
Evaluating the call expression first resolves the name `json`, then the
name `json_string`; the first unresolvable name raises `NameError`. -/
def PolicyOptimizationPlanner.from_json (compiler : Compiler)
    (json_config : String) : PyResult PolicyOptimizationPlanner :=
  if ¬ resolvesInFromJson "json" then
    PyResult.nameError "json"
  else if ¬ resolvesInFromJson "json_string" then
    PyResult.nameError "json_string"
  else
    PyResult.ok { compiler := compiler, config := json_config }

/-!  Concrete instances used to witness the theorems below. -/

/-- A one-column float32 tensor with two batch rows. -/
def exTensor2 (a b : ℚ) : Tensor := { dtype := DType.float32, rows := [[a], [b]] }

/-- A concrete fluent triple `(name, value, log_prob)` over batch 2. -/
def exF (n : String) (v a b : ℚ) : FluentTriple :=
  (n, ⟨exTensor2 v v⟩, ⟨exTensor2 a b⟩)

/-- A concrete two-variable-intermediate, one-variable-state compiler. -/
def exCompiler : Compiler :=
  { state_size := [[2]],
    action_size := [[2]],
    interm_size := [[2], [2]],
    compile_initial_state := fun b => [{ dtype := DType.float32, rows := List.replicate b [0, 0] }],
    transition_scope := fun _ _ => fun n => if n = "s" then some ⟨exTensor2 0 0⟩ else none,
    compile_probabilistic_cpfs := fun _ _ =>
      ([exF "i1" 1 2 1, exF "i2" 2 3 2], [exF "x" 5 7 3]),
    compile_reward := fun scope =>
      match scope "x" with
      | some f => f
      | none => ⟨exTensor2 0 0⟩ }

/-- A concrete float32-valued policy. -/
def exPolicy : Policy := fun _ _ => [exTensor2 1 1]

/-- A concrete simulation cell over batch 2. -/
def exCell : MRMCell := ⟨exCompiler, exPolicy, 2⟩

/-- A concrete `[2, 2]` step input `(timestep, stop_flag)`. -/
def exInput : Tensor := { dtype := DType.float32, rows := [[3, 0], [3, 0]] }

/-- A concrete `[2, 2]`-shaped one-variable state. -/
def exState : List Tensor := [{ dtype := DType.float32, rows := [[0, 0], [0, 0]] }]

/-- The concrete next-state fluent sampled by `exCompiler`. -/
def exNextFluent : FluentTriple := exF "x" 5 7 3

/-- The two fluent lists `(interm_fluents, next_state_fluents)` produced
inside one call of the cell. -/
def MRMCell.stepFluents (cell : MRMCell) (input : Tensor) (state : List Tensor) :
    List FluentTriple × List FluentTriple :=
  cell.compiler.compile_probabilistic_cpfs
    (cell.compiler.transition_scope state (cell.policy state input)) cell.batch_size

/-- A policy producing an integer-valued action tuple. -/
def cexPolicy : Policy := fun _ _ => [{ dtype := DType.int32, rows := [[1], [1]] }]

/-- The concrete cell whose policy emits an `int32` action. -/
def cexCell : MRMCell := ⟨exCompiler, cexPolicy, 2⟩

/-- Modelled from the spec: `MarkovRecurrentModel.trajectory` is not in
`src/` (only its tests appear); §4.2 of the spec has the driver call the
cell sequentially over the per-step inputs, feeding each step's carried
next state forward, and collect each step's outputs.  This unroll
returns the per-step `(reward, log_prob)` pairs. -/
def MRMCell.rolloutRewardsLogProbs (cell : MRMCell) :
    List Tensor → List Tensor → List (Tensor × Tensor)
  | _, [] => []
  | state, input :: rest =>
    let step := cell.call input state
    (step.1.2.2.2.1, step.1.2.2.2.2) :: cell.rolloutRewardsLogProbs step.2 rest

/-!  The rollout driver (`MarkovRecurrentModel`).  Its implementation is
not part of the sources here (only its tests are), so the driver-side
operations are modelled from the spec, §4.2. -/

/-- A rank-3 tensor `[batch, horizon, k]`: a dtype with nested data. -/
structure Tensor3 where
  dtype : DType
  data : List (List (List ℚ))
  deriving DecidableEq, Repr

/-- The two-valued reparameterization tag. -/
inductive ReparameterizationType where
  | FULLY_REPARAMETERIZED
  | NOT_REPARAMETERIZED
  deriving DecidableEq, Repr

/-- The stop-flag value broadcast for a rollout: `0` when fully
reparameterized, `1` when not. -/
def ReparameterizationType.flagValue : ReparameterizationType → ℚ
  | ReparameterizationType.FULLY_REPARAMETERIZED => 0
  | ReparameterizationType.NOT_REPARAMETERIZED => 1

/-- Modelled from the spec: `MarkovRecurrentModel(compiler, policy,
batch_size)` is absent from `src/`; like the cell it stores its three
constructor arguments. -/
structure MarkovRecurrentModel where
  compiler : Compiler
  policy : Policy
  batch_size : Nat

/-- Modelled from the spec: `MarkovRecurrentModel.timesteps(horizon)` is
absent from `src/`; per §4.2 it is a `[batch, horizon, 1]` tensor whose
every batch row is the countdown `horizon-1, horizon-2, …, 0`. -/
def MarkovRecurrentModel.timesteps (m : MarkovRecurrentModel) (horizon : Nat) :
    Tensor3 :=
  { dtype := DType.float32,
    data := List.replicate m.batch_size
      ((List.range horizon).map (fun t => [((horizon - 1 - t : Nat) : ℚ)])) }

/-- Modelled from the spec: `MarkovRecurrentModel.stop_flags(horizon,
reparam_type)` is absent from `src/`; per §4.2 it is the `[batch,
horizon, 1]` tensor holding the rollout's constant flag value. -/
def MarkovRecurrentModel.stop_flags (m : MarkovRecurrentModel) (horizon : Nat)
    (reparam_type : ReparameterizationType) : Tensor3 :=
  { dtype := DType.float32,
    data := List.replicate m.batch_size
      (List.replicate horizon [reparam_type.flagValue]) }

/-- The concrete rollout driver used by the witnesses. -/
def exMRM : MarkovRecurrentModel := ⟨exCompiler, exPolicy, 2⟩

/-- Elementwise addition of two equal-width vectors. -/
def vecAdd (a b : List ℚ) : List ℚ := List.zipWith (fun x y => x + y) a b

/-- Modelled from the spec: `MarkovRecurrentModel.reward_to_go` is
absent from `src/`; per §4.2 it is the suffix sum along the horizon
axis: the last entry is kept, every earlier entry is the current reward
plus the suffix sum one step later.  This is the per-batch-row kernel. -/
def suffixCumsum : List (List ℚ) → List (List ℚ)
  | [] => []
  | c :: cs =>
    match suffixCumsum cs with
    | [] => [c]
    | d :: ds => vecAdd c d :: d :: ds

/-- Modelled from the spec: `reward_to_go(rewards)` applies the suffix
sum to every batch row, keeping shape and dtype. -/
def MarkovRecurrentModel.reward_to_go (rewards : Tensor3) : Tensor3 :=
  { dtype := rewards.dtype, data := rewards.data.map suffixCumsum }

/-- A concrete `[2, 3, 1]` reward tensor. -/
def exRewards : Tensor3 :=
  { dtype := DType.float32, data := [[[1], [2], [3]], [[4], [5], [6]]] }

/-!  Generic lemmas about `Scope.update`. -/

/-- A name not bound by any of the updating fluents still resolves
through the original scope. -/
theorem Scope.update_not_mem (fluents : List FluentTriple) (scope : Scope)
    (n : String) (h : n ∉ fluents.map (fun f => f.1)) :
    Scope.update scope fluents n = scope n := by
  induction fluents generalizing scope with
  | nil => rfl
  | cons f rest ih =>
    simp only [List.map_cons, List.mem_cons, not_or] at h
    simp only [Scope.update, List.foldl_cons] at *
    rw [ih _ h.2]
    simp [h.1]

/-- A fluent whose name occurs just once among the updating fluents is
what its name resolves to after the update. -/
theorem Scope.update_mem_unique (fluents : List FluentTriple) (scope : Scope)
    (t : FluentTriple) (ht : t ∈ fluents)
    (huniq : ∀ t' ∈ fluents, t'.1 = t.1 → t' = t) :
    Scope.update scope fluents t.1 = some t.2.1 := by
  induction fluents generalizing scope with
  | nil => cases ht
  | cons f rest ih =>
    change Scope.update (fun n => if n = f.1 then some f.2.1 else scope n) rest t.1 =
      some t.2.1
    by_cases hk : t.1 ∈ rest.map (fun f => f.1)
    · obtain ⟨r, hr, hr1⟩ := List.mem_map.mp hk
      have hrt : r = t := huniq r (List.mem_cons_of_mem _ hr) hr1
      exact ih _ (hrt ▸ hr) (fun t' h' he => huniq t' (List.mem_cons_of_mem _ h') he)
    · rw [Scope.update_not_mem rest _ _ hk]
      rcases List.mem_cons.mp ht with hf | hrest
      · subst hf
        simp
      · exact absurd (List.mem_map.mpr ⟨t, hrest, rfl⟩) hk

/-- C7: for all shape metadata held by the compiler, the simulation
cell's `output_size` equals the 5-tuple
`(state_size, action_size, interm_size, 1, 1)`. -/
theorem mrm_output_size_eq (cell : MRMCell) :
    cell.output_size =
      (cell.compiler.state_size, cell.compiler.action_size,
       cell.compiler.interm_size, 1, 1) := rfl

/-- C8: the carried state returned as the second element of
`(output, next_state)` is exactly the `next_state` component inside the
five-component output tuple. -/
theorem mrm_call_carries_next_state (cell : MRMCell) (input : Tensor)
    (state : List Tensor) :
    (cell.call input state).2 = (cell.call input state).1.1 := rfl

/-- C2: the step's reward is `compile_reward` evaluated on the
transition scope updated with the sampled next-state fluents, and in
that updated scope every next-state fluent name (occurring once) resolves
to its freshly sampled value. -/
theorem mrm_reward_from_updated_scope (cell : MRMCell) (input : Tensor)
    (state : List Tensor) :
    (cell.call input state).1.2.2.2.1 =
      (cell.compiler.compile_reward
        ((cell.compiler.transition_scope state (cell.policy state input)).update
          (cell.compiler.compile_probabilistic_cpfs
            (cell.compiler.transition_scope state (cell.policy state input))
            cell.batch_size).2)).tensor
    ∧ ∀ t ∈ (cell.compiler.compile_probabilistic_cpfs
          (cell.compiler.transition_scope state (cell.policy state input))
          cell.batch_size).2,
        (∀ t' ∈ (cell.compiler.compile_probabilistic_cpfs
              (cell.compiler.transition_scope state (cell.policy state input))
              cell.batch_size).2,
            t'.1 = t.1 → t' = t) →
        ((cell.compiler.transition_scope state (cell.policy state input)).update
          (cell.compiler.compile_probabilistic_cpfs
            (cell.compiler.transition_scope state (cell.policy state input))
            cell.batch_size).2) t.1 = some t.2.1 :=
  ⟨rfl, fun t ht huniq => Scope.update_mem_unique _ _ t ht huniq⟩

/-- Witness for C2 at the concrete cell: the name of the sampled
next-state fluent `"x"` resolves in the updated scope to its sampled
value. -/
theorem mrm_reward_from_updated_scope_witness :
    ((exCell.compiler.transition_scope exState (exCell.policy exState exInput)).update
      (exCell.compiler.compile_probabilistic_cpfs
        (exCell.compiler.transition_scope exState (exCell.policy exState exInput))
        exCell.batch_size).2) exNextFluent.1 = some exNextFluent.2.1 :=
  (mrm_reward_from_updated_scope exCell exInput exState).2 exNextFluent
    (List.Mem.head _)
    (by
      intro t' ht' h
      have ht2 : t' ∈ [exF "x" 5 7 3] := ht'
      cases ht2 with
      | head => rfl
      | tail _ hmem => cases hmem)

/-- C10: `PolicyOptimizationPlanner.from_json` raises `NameError` on the
name `json` for every compiler and every JSON string, and so never
returns a planner. -/
theorem planner_from_json_always_name_error (compiler : Compiler)
    (json_config : String) :
    PolicyOptimizationPlanner.from_json compiler json_config =
      PyResult.nameError "json" := rfl

/-!  Row-indexed reformulations of the tensor reductions, used for C1. -/

/-- `zipWith` of two pointwise images of one list is a pointwise image. -/
theorem zipWith_map_same {α β γ δ : Type} (h : β → γ → δ) (f : α → β) (g : α → γ)
    (l : List α) :
    List.zipWith h (l.map f) (l.map g) = l.map (fun i => h (f i) (g i)) := by
  rw [List.zipWith_map, List.zipWith_same]

/-- A pointwise image of a list, re-expressed through positional lookup. -/
theorem map_eq_map_range_getD {α β : Type} (F : α → β) (d : α) (l : List α) :
    l.map F = (List.range l.length).map (fun i => F (l.getD i d)) := by
  induction l with
  | nil => rfl
  | cons x xs ih =>
    rw [List.map_cons, List.length_cons, List.range_succ_eq_map, List.map_cons,
      List.map_map]
    simp only [List.getD_cons_zero, Function.comp_def, Nat.succ_eq_add_one,
      List.getD_cons_succ]
    rw [ih]

/-- Summing the rows of a concatenation of same-batch rank-2 tensors
yields, per batch row, the sum of the operands' row sums. -/
theorem reduceSum1_concatAxis1 (batch : Nat) :
    ∀ (ls : List (List (List ℚ))), ls ≠ [] → (∀ l ∈ ls, l.length = batch) →
      reduceSum1 (concatAxis1 ls) =
        (List.range batch).map (fun i => (ls.map (fun l => (l.getD i []).sum)).sum)
  | [], h, _ => absurd rfl h
  | [x], _, hl => by
    have hx : x.length = batch := hl x (List.mem_cons_self _ _)
    show reduceSum1 x = _
    rw [reduceSum1, map_eq_map_range_getD List.sum [] x, hx]
    simp
  | x :: y :: rest, _, hl => by
    have hx : x.length = batch := hl x (List.mem_cons_self _ _)
    have hrec := reduceSum1_concatAxis1 batch (y :: rest) (by simp)
      (fun l hm => hl l (List.mem_cons_of_mem _ hm))
    show reduceSum1 (List.zipWith (fun a b => a ++ b) x (concatAxis1 (y :: rest))) = _
    rw [reduceSum1, List.map_zipWith]
    simp only [List.sum_append]
    rw [← List.zipWith_map (fun a b => a + b) List.sum List.sum x (concatAxis1 (y :: rest))]
    rw [map_eq_map_range_getD List.sum [] x, hx]
    rw [reduceSum1] at hrec
    rw [hrec, zipWith_map_same]
    simp

/-- The rows of `_log_prob` are, per batch row, the singleton holding the
sum of the intermediate fluents' log-prob row sums plus the sum of the
next-state fluents' log-prob row sums. -/
theorem stepLogProb_rows (batch : Nat) (fi fn : List FluentTriple)
    (hi : fi ≠ []) (hn : fn ≠ [])
    (hil : ∀ f ∈ fi, f.2.2.tensor.rows.length = batch)
    (hnl : ∀ f ∈ fn, f.2.2.tensor.rows.length = batch) :
    (MRMCell.stepLogProb fi fn).rows =
      (List.range batch).map (fun i =>
        [(fi.map (fun f => (f.2.2.tensor.rows.getD i []).sum)).sum +
         (fn.map (fun f => (f.2.2.tensor.rows.getD i []).sum)).sum]) := by
  have h1 := reduceSum1_concatAxis1 batch (fi.map (fun f => f.2.2.tensor.rows))
    (by simpa using hi)
    (by
      intro l hm
      obtain ⟨f, hf, rfl⟩ := List.mem_map.mp hm
      exact hil f hf)
  have h2 := reduceSum1_concatAxis1 batch (fn.map (fun f => f.2.2.tensor.rows))
    (by simpa using hn)
    (by
      intro l hm
      obtain ⟨f, hf, rfl⟩ := List.mem_map.mp hm
      exact hnl f hf)
  show (List.zipWith (fun a b => a + b)
      (reduceSum1 (concatAxis1 (fi.map (fun f => f.2.2.tensor.rows))))
      (reduceSum1 (concatAxis1 (fn.map (fun f => f.2.2.tensor.rows))))).map
      (fun x => [x]) = _
  rw [h1, h2, zipWith_map_same, List.map_map]
  simp [Function.comp_def, List.map_map]

/-- C1: the step log-probability output of the cell is, for each batch
row, the single scalar obtained by summing all intermediate fluents'
log-prob entries of that row and adding the sum over all next-state
fluents' log-prob entries, i.e. a `[batch, 1]` tensor of per-row sums. -/
theorem mrm_step_log_prob_sums (cell : MRMCell) (input : Tensor)
    (state : List Tensor) (batch : Nat)
    (hi : (cell.stepFluents input state).1 ≠ [])
    (hn : (cell.stepFluents input state).2 ≠ [])
    (hil : ∀ f ∈ (cell.stepFluents input state).1, f.2.2.tensor.rows.length = batch)
    (hnl : ∀ f ∈ (cell.stepFluents input state).2, f.2.2.tensor.rows.length = batch) :
    (cell.call input state).1.2.2.2.2.rows =
      (List.range batch).map (fun i =>
        [((cell.stepFluents input state).1.map
            (fun f => (f.2.2.tensor.rows.getD i []).sum)).sum +
         ((cell.stepFluents input state).2.map
            (fun f => (f.2.2.tensor.rows.getD i []).sum)).sum]) :=
  stepLogProb_rows batch _ _ hi hn hil hnl

/-- Witness for C1 at the concrete two-intermediate, one-next-state cell
with batch 2: the hypotheses hold and the log-prob output is the row-wise
sum of the three fluents' log-probs. -/
theorem mrm_step_log_prob_sums_witness :
    ((exCell.stepFluents exInput exState).1 ≠ [] ∧
     (exCell.stepFluents exInput exState).2 ≠ [] ∧
     (∀ f ∈ (exCell.stepFluents exInput exState).1, f.2.2.tensor.rows.length = 2) ∧
     (∀ f ∈ (exCell.stepFluents exInput exState).2, f.2.2.tensor.rows.length = 2)) ∧
    (exCell.call exInput exState).1.2.2.2.2.rows =
      (List.range 2).map (fun i =>
        [((exCell.stepFluents exInput exState).1.map
            (fun f => (f.2.2.tensor.rows.getD i []).sum)).sum +
         ((exCell.stepFluents exInput exState).2.map
            (fun f => (f.2.2.tensor.rows.getD i []).sum)).sum]) :=
  ⟨⟨by decide, by decide, by decide, by decide⟩,
   mrm_step_log_prob_sums exCell exInput exState 2
     (by decide) (by decide) (by decide) (by decide)⟩

/-- Casting a tensor with `_dtype` always yields dtype `float32`. -/
theorem toFloat32_dtype (t : Tensor) : (MRMCell.toFloat32 t).dtype = DType.float32 := by
  by_cases h : t.dtype = DType.float32 <;> simp [MRMCell.toFloat32, h]

/-- C3 (amended): in every simulation step the `next_state` and
`interm_state` output tensors are normalized to `float32` (cast whenever
the fluent's native dtype differs), while the `action` component is
emitted exactly as the policy produced it, with no cast. -/
theorem mrm_output_dtype_normalization (cell : MRMCell) (input : Tensor)
    (state : List Tensor) :
    (∀ t ∈ (cell.call input state).1.1, t.dtype = DType.float32) ∧
    (∀ t ∈ (cell.call input state).1.2.2.1, t.dtype = DType.float32) ∧
    (cell.call input state).1.2.1 = cell.policy state input := by
  refine ⟨?_, ?_, rfl⟩ <;>
  · intro t ht
    obtain ⟨u, _, rfl⟩ := List.mem_map.mp ht
    exact toFloat32_dtype u

/-- Witness for C3's amended statement at the concrete cell: the sampled
next-state tensor comes out as `float32` and the action is the policy's
output, untouched. -/
theorem mrm_output_dtype_normalization_witness :
    (MRMCell.toFloat32 (exTensor2 5 5)).dtype = DType.float32 ∧
    (exCell.call exInput exState).1.2.1 = exCell.policy exState exInput :=
  ⟨(mrm_output_dtype_normalization exCell exInput exState).1
      (MRMCell.toFloat32 (exTensor2 5 5)) (List.Mem.head _),
   (mrm_output_dtype_normalization exCell exInput exState).2.2⟩

/-- Counterexample to C3 as stated: with an integer-valued policy action
the `action` component of the step output keeps dtype `int32` — the cell
casts only the next-state and intermediate tensors, never the action. -/
theorem mrm_action_not_cast_counterexample :
    ¬ (∀ t ∈ (cexCell.call exInput exState).1.2.1, t.dtype = DType.float32) := by
  intro h
  have h1 := h { dtype := DType.int32, rows := [[1], [1]] } (List.Mem.head _)
  exact absurd h1 (by decide)

/-- C9: the cell holds no internal mutable state — any two cells built
from the same compiler, policy and batch size compute identical step
outputs on identical `(input, state)` arguments, and whole rollouts from
identical initial states and inputs produce identical reward and
log-prob tensors (randomness lives in the compiler's sampling functions,
which seeded randomness fixes). -/
theorem mrm_cell_deterministic (c1 c2 : MRMCell)
    (hc : c1.compiler = c2.compiler) (hp : c1.policy = c2.policy)
    (hb : c1.batch_size = c2.batch_size) :
    (∀ input state, c1.call input state = c2.call input state) ∧
    (∀ state inputs, c1.rolloutRewardsLogProbs state inputs =
      c2.rolloutRewardsLogProbs state inputs) := by
  obtain ⟨cc1, cp1, cb1⟩ := c1
  obtain ⟨cc2, cp2, cb2⟩ := c2
  cases hc
  cases hp
  cases hb
  exact ⟨fun _ _ => rfl, fun _ _ => rfl⟩

/-- Witness for C9: two identically parameterized concrete cells agree
on a concrete step and on a concrete two-step rollout. -/
theorem mrm_cell_deterministic_witness :
    exCell.call exInput exState = (MRMCell.mk exCompiler exPolicy 2).call exInput exState ∧
    exCell.rolloutRewardsLogProbs exState [exInput, exInput] =
      (MRMCell.mk exCompiler exPolicy 2).rolloutRewardsLogProbs exState [exInput, exInput] :=
  ⟨(mrm_cell_deterministic exCell (MRMCell.mk exCompiler exPolicy 2) rfl rfl rfl).1
      exInput exState,
   (mrm_cell_deterministic exCell (MRMCell.mk exCompiler exPolicy 2) rfl rfl rfl).2
      exState [exInput, exInput]⟩

/-- Positional lookup through a pointwise image. -/
theorem getD_map_of_lt {α β : Type} (f : α → β) (l : List α) (i : Nat)
    (h : i < l.length) (d : α) (d' : β) :
    (l.map f).getD i d' = f (l.getD i d) := by
  rw [List.getD_eq_getElem _ _ (by simpa using h), List.getD_eq_getElem _ _ h,
    List.getElem_map]

/-- C5: for every horizon `H ≥ 1`, `timesteps(H)` has `batch` rows along
the batch axis and every batch row is the strictly decreasing countdown
`H-1, H-2, …, 0`, one scalar per timestep. -/
theorem mrm_timesteps_countdown (m : MarkovRecurrentModel) (horizon : Nat)
    (h : 1 ≤ horizon) :
    (m.timesteps horizon).data.length = m.batch_size ∧
    ∀ row ∈ (m.timesteps horizon).data,
      row.length = horizon ∧
      (∀ t, t < horizon → row.getD t [] = [((horizon - 1 - t : Nat) : ℚ)]) ∧
      (∀ t, t + 1 < horizon →
        (row.getD (t + 1) []).getD 0 0 < (row.getD t []).getD 0 0) ∧
      row.getD 0 [] = [((horizon - 1 : Nat) : ℚ)] ∧
      row.getD (horizon - 1) [] = [(0 : ℚ)] := by
  constructor
  · simp [MarkovRecurrentModel.timesteps]
  · intro row hrow
    have hr : row = (List.range horizon).map (fun t => [((horizon - 1 - t : Nat) : ℚ)]) :=
      List.eq_of_mem_replicate hrow
    subst hr
    have hentry : ∀ t, t < horizon →
        ((List.range horizon).map (fun t => [((horizon - 1 - t : Nat) : ℚ)])).getD t [] =
          [((horizon - 1 - t : Nat) : ℚ)] := by
      intro t ht
      rw [getD_map_of_lt _ _ t (by simpa using ht) 0]
      rw [List.getD_eq_getElem _ _ (by simpa using ht), List.getElem_range]
    refine ⟨by simp, hentry, ?_, ?_, ?_⟩
    · intro t ht
      rw [hentry t (by omega), hentry (t + 1) ht]
      simp only [List.getD_cons_zero]
      have hlt : horizon - 1 - (t + 1) < horizon - 1 - t := by omega
      exact_mod_cast hlt
    · simpa using hentry 0 (by omega)
    · simpa using hentry (horizon - 1) (by omega)

/-- Witness for C5 at horizon 3 over the concrete driver. -/
theorem mrm_timesteps_countdown_witness :
    (1 ≤ 3) ∧ (exMRM.timesteps 3).data.length = exMRM.batch_size ∧
    ((List.range 3).map (fun t => [((3 - 1 - t : Nat) : ℚ)])).getD 0 [] =
      [((3 - 1 : Nat) : ℚ)] :=
  ⟨by decide, (mrm_timesteps_countdown exMRM 3 (by decide)).1,
   ((mrm_timesteps_countdown exMRM 3 (by decide)).2 _ (List.Mem.head _)).2.2.2.1⟩

/-- C6: `stop_flags(H, FULLY_REPARAMETERIZED)` is the all-zero
`[batch, H, 1]` tensor, `stop_flags(H, NOT_REPARAMETERIZED)` the all-one
one, and the flag is the same constant in every batch row and at every
timestep of one rollout. -/
theorem mrm_stop_flags_spec (m : MarkovRecurrentModel) (horizon : Nat) :
    (m.stop_flags horizon ReparameterizationType.FULLY_REPARAMETERIZED).data =
      List.replicate m.batch_size (List.replicate horizon [(0 : ℚ)]) ∧
    (m.stop_flags horizon ReparameterizationType.NOT_REPARAMETERIZED).data =
      List.replicate m.batch_size (List.replicate horizon [(1 : ℚ)]) ∧
    ∀ rt : ReparameterizationType, ∀ row ∈ (m.stop_flags horizon rt).data,
      row.length = horizon ∧ ∀ c ∈ row, c = [rt.flagValue] := by
  refine ⟨rfl, rfl, ?_⟩
  intro rt row hrow
  have hr : row = List.replicate horizon [rt.flagValue] :=
    List.eq_of_mem_replicate hrow
  subst hr
  exact ⟨by simp, fun c hc => List.eq_of_mem_replicate hc⟩

/-- Witness for C6 at horizon 3 over the concrete driver. -/
theorem mrm_stop_flags_spec_witness :
    (exMRM.stop_flags 3 ReparameterizationType.FULLY_REPARAMETERIZED).data =
      List.replicate exMRM.batch_size (List.replicate 3 [(0 : ℚ)]) ∧
    (List.replicate 3 [ReparameterizationType.NOT_REPARAMETERIZED.flagValue]).length = 3 :=
  ⟨(mrm_stop_flags_spec exMRM 3).1,
   ((mrm_stop_flags_spec exMRM 3).2.2 ReparameterizationType.NOT_REPARAMETERIZED
      _ (List.Mem.head _)).1⟩

/-- The suffix sum of a nonempty row is nonempty. -/
theorem suffixCumsum_ne_nil (c : List ℚ) (cs : List (List ℚ)) :
    suffixCumsum (c :: cs) ≠ [] := by
  cases h : suffixCumsum cs <;> simp [suffixCumsum, h]

/-- Unfolding of the suffix sum on a row of length at least two. -/
theorem suffixCumsum_cons_of_ne (c : List ℚ) (cs : List (List ℚ)) (h : cs ≠ []) :
    suffixCumsum (c :: cs) =
      vecAdd c ((suffixCumsum cs).headD []) :: suffixCumsum cs := by
  obtain ⟨c', cs', rfl⟩ := List.exists_cons_of_ne_nil h
  cases hsc : suffixCumsum (c' :: cs') with
  | nil => exact absurd hsc (suffixCumsum_ne_nil _ _)
  | cons d ds =>
    conv_lhs => rw [suffixCumsum]
    rw [hsc]
    rfl

/-- The suffix sum preserves the horizon length. -/
theorem suffixCumsum_length : ∀ (l : List (List ℚ)),
    (suffixCumsum l).length = l.length
  | [] => rfl
  | [_] => rfl
  | c :: c' :: cs => by
    rw [suffixCumsum_cons_of_ne c _ (by simp)]
    simp only [List.length_cons, suffixCumsum_length (c' :: cs)]

/-- `headD` agrees with lookup at index 0. -/
theorem headD_eq_getD_zero {α : Type} (l : List α) (d : α) :
    l.headD d = l.getD 0 d := by
  cases l <;> rfl

/-- At the final timestep the suffix sum equals the reward itself. -/
theorem suffixCumsum_last : ∀ (c : List ℚ) (cs : List (List ℚ)),
    (suffixCumsum (c :: cs)).getD cs.length [] = (c :: cs).getD cs.length []
  | _, [] => rfl
  | c, c' :: cs => by
    rw [suffixCumsum_cons_of_ne c _ (by simp)]
    simp only [List.length_cons, List.getD_cons_succ]
    exact suffixCumsum_last c' cs

/-- At the first timestep the suffix sum is the total return of the row. -/
theorem suffixCumsum_head : ∀ (c : List ℚ) (cs : List (List ℚ)),
    (∀ x ∈ c :: cs, x.length = 1) →
    (suffixCumsum (c :: cs)).getD 0 [] = [((c :: cs).map (fun x => x.getD 0 0)).sum]
  | c, [], h => by
    obtain ⟨v, hv⟩ := List.length_eq_one.mp (h c (List.mem_cons_self _ _))
    subst hv
    simp [suffixCumsum]
  | c, c' :: cs, h => by
    obtain ⟨v, hv⟩ := List.length_eq_one.mp (h c (List.mem_cons_self _ _))
    subst hv
    have ih := suffixCumsum_head c' cs (fun x hx => h x (List.mem_cons_of_mem _ hx))
    rw [suffixCumsum_cons_of_ne _ _ (by simp), List.getD_cons_zero,
      headD_eq_getD_zero, ih]
    simp [vecAdd]

/-- The suffix-sum recurrence: before the final timestep, each entry is
the current reward plus the suffix sum one step later. -/
theorem suffixCumsum_rec : ∀ (l : List (List ℚ)) (t : Nat), t + 1 < l.length →
    (suffixCumsum l).getD t [] =
      vecAdd (l.getD t []) ((suffixCumsum l).getD (t + 1) [])
  | [], _, h => by simp at h
  | [_], _, h => by simp at h
  | c :: c' :: cs, 0, _ => by
    rw [suffixCumsum_cons_of_ne _ _ (by simp)]
    simp only [List.getD_cons_zero, List.getD_cons_succ]
    rw [headD_eq_getD_zero]
  | c :: c' :: cs, t + 1, h => by
    rw [suffixCumsum_cons_of_ne _ _ (by simp)]
    simp only [List.getD_cons_succ]
    exact suffixCumsum_rec (c' :: cs) t
      (by simp only [List.length_cons] at h ⊢; omega)

/-- The suffix sum keeps every entry a single scalar. -/
theorem suffixCumsum_width : ∀ (l : List (List ℚ)), (∀ x ∈ l, x.length = 1) →
    ∀ y ∈ suffixCumsum l, y.length = 1
  | [], _, _, hy => by cases hy
  | [c], h, y, hy => by
    have hyc : y = c := by simpa [suffixCumsum] using hy
    exact hyc ▸ h c (List.mem_cons_self _ _)
  | c :: c' :: cs, h, y, hy => by
    rw [suffixCumsum_cons_of_ne _ _ (by simp)] at hy
    have hw := suffixCumsum_width (c' :: cs)
      (fun x hx => h x (List.mem_cons_of_mem _ hx))
    rcases List.mem_cons.mp hy with hv | hy'
    · subst hv
      obtain ⟨v, hcv⟩ := List.length_eq_one.mp (h c (List.mem_cons_self _ _))
      have hd : (suffixCumsum (c' :: cs)).headD [] ∈ suffixCumsum (c' :: cs) := by
        cases hsc : suffixCumsum (c' :: cs) with
        | nil => exact absurd hsc (suffixCumsum_ne_nil _ _)
        | cons d ds => simp
      obtain ⟨w, hdw⟩ := List.length_eq_one.mp (hw _ hd)
      rw [hcv, hdw]
      rfl
    · exact hw y hy'

/-- C4: for every `[batch, H, 1]` reward tensor, `reward_to_go`
preserves dtype and all three axes, equals the rewards at the final
timestep, equals the total return at the first timestep, and satisfies
the suffix-sum recurrence at every earlier timestep. -/
theorem mrm_reward_to_go_spec (rewards : Tensor3) (H : Nat) (hH : 1 ≤ H)
    (hrow : ∀ row ∈ rewards.data, row.length = H)
    (hcell : ∀ row ∈ rewards.data, ∀ c ∈ row, c.length = 1) :
    (MarkovRecurrentModel.reward_to_go rewards).dtype = rewards.dtype ∧
    (MarkovRecurrentModel.reward_to_go rewards).data.length = rewards.data.length ∧
    (MarkovRecurrentModel.reward_to_go rewards).data = rewards.data.map suffixCumsum ∧
    ∀ row ∈ rewards.data,
      (suffixCumsum row).length = H ∧
      (∀ c ∈ suffixCumsum row, c.length = 1) ∧
      (suffixCumsum row).getD (H - 1) [] = row.getD (H - 1) [] ∧
      (suffixCumsum row).getD 0 [] = [(row.map (fun c => c.getD 0 0)).sum] ∧
      (∀ t, t + 1 < H → (suffixCumsum row).getD t [] =
        vecAdd (row.getD t []) ((suffixCumsum row).getD (t + 1) [])) := by
  refine ⟨rfl, by simp [MarkovRecurrentModel.reward_to_go], rfl, ?_⟩
  intro row hr
  have hlen := hrow row hr
  have hc := hcell row hr
  have hne : row ≠ [] := List.ne_nil_of_length_pos (by omega)
  obtain ⟨c, cs, rfl⟩ := List.exists_cons_of_ne_nil hne
  have hcs : cs.length = H - 1 := by
    simp only [List.length_cons] at hlen
    omega
  refine ⟨?_, suffixCumsum_width _ hc, ?_, suffixCumsum_head c cs hc, ?_⟩
  · rw [suffixCumsum_length]
    exact hlen
  · rw [← hcs]
    exact suffixCumsum_last c cs
  · intro t ht
    refine suffixCumsum_rec (c :: cs) t ?_
    rw [hlen]
    exact ht

/-- Witness for C4 on the concrete reward tensor: dtype is preserved and
the first-timestep suffix sum of the first batch row is its total
return. -/
theorem mrm_reward_to_go_spec_witness :
    (1 ≤ 3) ∧
    (MarkovRecurrentModel.reward_to_go exRewards).dtype = exRewards.dtype ∧
    (suffixCumsum [[(1 : ℚ)], [2], [3]]).getD 0 [] =
      [(([[(1 : ℚ)], [2], [3]].map (fun c => c.getD 0 0)).sum)] :=
  ⟨by decide,
   (mrm_reward_to_go_spec exRewards 3 (by decide) (by decide) (by decide)).1,
   ((mrm_reward_to_go_spec exRewards 3 (by decide) (by decide) (by decide)).2.2.2
      _ (List.Mem.head _)).2.2.2.1⟩
